import Mathlib

/-!
Verification of the noodlog logging library (logger.go) against its
natural-language specification.

The Go source is shallowly embedded: the pure log-record composition
pipeline (argument normalization, JSON detection, regex-based redaction,
envelope assembly, rendering) is translated into executable Lean
definitions.  Effects are made explicit: the current time and the caller
file/function are passed as parameters, the bytes written to the sink and
the process-termination behaviour are returned as data.  Go `panic` is
modelled by `Option`/an explicit outcome constructor.

External Go standard-library functions used by logger.go
(`encoding/json`, `fmt`, `regexp`, `strings`) are embedded at the
precision the claims need; simplifications are noted at each definition.
-/

set_option maxRecDepth 8000

namespace Noodlog

/-! ## JSON values

JSON values as produced by Go `encoding/json.Unmarshal` into `interface{}`.
Numbers keep their source lexeme (Go converts to `float64`; no claim
depends on identifying distinct in-range lexemes with equal values, and
the out-of-range conversion failure is modelled by `unmarshalJson`
below).  The item/field lists are mutual inductives so that all
recursion over them is plainly structural. -/

mutual
inductive Json where
  | null : Json
  | bool (b : Bool) : Json
  | num (lit : String) : Json
  | str (s : String) : Json
  | arr (items : JsonItems) : Json
  | obj (fields : JsonFields) : Json
inductive JsonItems where
  | nil : JsonItems
  | cons (hd : Json) (tl : JsonItems) : JsonItems
inductive JsonFields where
  | nil : JsonFields
  | cons (key : String) (val : Json) (tl : JsonFields) : JsonFields
end

/-! ## JSON parsing (Go `json.Valid` / `json.Unmarshal`)

A recursive-descent parser for the JSON grammar accepted by Go
`encoding/json`: optional surrounding whitespace, one value, nothing
after it.  `strToObj` in logger.go calls `json.Valid` and then
`json.Unmarshal`; both accept exactly the inputs on which `parseJson`
returns `some`. -/

def isWsChar (c : Char) : Bool :=
  if c = ' ' then true else if c = '\t' then true
  else if c = '\n' then true else if c = '\r' then true else false

def skipWs : List Char → List Char
  | [] => []
  | c :: cs => if isWsChar c then skipWs cs else c :: cs

def isDigitChar (c : Char) : Bool :=
  if '0' ≤ c then (if c ≤ '9' then true else false) else false

def hexVal (c : Char) : Option Nat :=
  if '0' ≤ c ∧ c ≤ '9' then some (c.toNat - '0'.toNat)
  else if 'a' ≤ c ∧ c ≤ 'f' then some (c.toNat - 'a'.toNat + 10)
  else if 'A' ≤ c ∧ c ≤ 'F' then some (c.toNat - 'A'.toNat + 10)
  else none

/-- If `lit` is a prefix of `cs`, return the remainder of `cs`. -/
def litPrefix : List Char → List Char → Option (List Char)
  | [], cs => some cs
  | _ :: _, [] => none
  | l :: ls, c :: cs => if l = c then litPrefix ls cs else none

/-- Longest leading run of decimal digits, and the rest. -/
def lexDigits : List Char → (List Char × List Char)
  | [] => ([], [])
  | c :: cs =>
    if isDigitChar c then
      let p := lexDigits cs
      (c :: p.1, p.2)
    else ([], c :: cs)

/-- JSON integer part: `0` or a nonzero digit followed by digits. -/
def lexInt : List Char → Option (List Char × List Char)
  | [] => none
  | c :: cs =>
    if c = '0' then some ([c], cs)
    else if isDigitChar c then
      let p := lexDigits cs
      some (c :: p.1, p.2)
    else none

/-- Optional JSON fraction part `.digits`. -/
def lexFrac : List Char → Option (List Char × List Char)
  | [] => some ([], [])
  | c :: cs =>
    if c = '.' then
      match lexDigits cs with
      | ([], _) => none
      | (ds, rest) => some (c :: ds, rest)
    else some ([], c :: cs)

/-- Optional JSON exponent part `e[+-]digits`. -/
def lexExp : List Char → Option (List Char × List Char)
  | [] => some ([], [])
  | c :: cs =>
    if c = 'e' ∨ c = 'E' then
      let p : List Char × List Char :=
        match cs with
        | [] => ([], [])
        | s :: cs2 => if s = '+' ∨ s = '-' then ([s], cs2) else ([], s :: cs2)
      match lexDigits p.2 with
      | ([], _) => none
      | (ds, rest) => some (c :: (p.1 ++ ds), rest)
    else some ([], c :: cs)

/-- Lex a JSON number, returning its lexeme and the rest of the input. -/
def lexNumber (cs : List Char) : Option (List Char × List Char) :=
  let p : List Char × List Char :=
    match cs with
    | [] => ([], [])
    | c :: cs2 => if c = '-' then ([c], cs2) else ([], c :: cs2)
  match lexInt p.2 with
  | none => none
  | some (ip, cs2) =>
    match lexFrac cs2 with
    | none => none
    | some (fp, cs3) =>
      match lexExp cs3 with
      | none => none
      | some (ep, rest) => some (p.1 ++ ip ++ fp ++ ep, rest)

/-- Body of a JSON string after the opening quote, with Go escape
handling.  Simplification relative to Go: a `\uXXXX` escape in the
surrogate range becomes U+FFFD directly (Go combines surrogate pairs and
replaces unpaired halves by U+FFFD); no claim exercises surrogates. -/
def parseStrBody : Nat → List Char → List Char → Option (String × List Char)
  | 0, _, _ => none
  | fuel + 1, cs, acc =>
    match cs with
    | [] => none
    | c :: rest =>
      if c = '"' then some (String.mk acc.reverse, rest)
      else if c = '\\' then
        match rest with
        | [] => none
        | e :: rest2 =>
          if e = '"' then parseStrBody fuel rest2 ('"' :: acc)
          else if e = '\\' then parseStrBody fuel rest2 ('\\' :: acc)
          else if e = '/' then parseStrBody fuel rest2 ('/' :: acc)
          else if e = 'b' then parseStrBody fuel rest2 ('\x08' :: acc)
          else if e = 'f' then parseStrBody fuel rest2 ('\x0c' :: acc)
          else if e = 'n' then parseStrBody fuel rest2 ('\n' :: acc)
          else if e = 'r' then parseStrBody fuel rest2 ('\r' :: acc)
          else if e = 't' then parseStrBody fuel rest2 ('\t' :: acc)
          else if e = 'u' then
            match rest2 with
            | h1 :: h2 :: h3 :: h4 :: rest3 =>
              match hexVal h1, hexVal h2, hexVal h3, hexVal h4 with
              | some a, some b, some c2, some d =>
                let n := ((a * 16 + b) * 16 + c2) * 16 + d
                let ch := if 0xd800 ≤ n ∧ n ≤ 0xdfff then '�' else Char.ofNat n
                parseStrBody fuel rest3 (ch :: acc)
              | _, _, _, _ => none
            | _ => none
          else none
      else if c.toNat < 0x20 then none
      else parseStrBody fuel rest (c :: acc)

mutual
/-- Parse one JSON value starting at a non-whitespace position. -/
def parseValue : Nat → List Char → Option (Json × List Char)
  | 0, _ => none
  | fuel + 1, cs =>
    match cs with
    | [] => none
    | c :: rest =>
      if c = 'n' then Option.map (fun r => (Json.null, r)) (litPrefix "ull".data rest)
      else if c = 't' then Option.map (fun r => (Json.bool true, r)) (litPrefix "rue".data rest)
      else if c = 'f' then Option.map (fun r => (Json.bool false, r)) (litPrefix "alse".data rest)
      else if c = '"' then
        Option.map (fun p => (Json.str p.1, p.2)) (parseStrBody (fuel + 1) rest [])
      else if c = '-' ∨ isDigitChar c then
        Option.map (fun p => (Json.num (String.mk p.1), p.2)) (lexNumber (c :: rest))
      else if c = '[' then
        match skipWs rest with
        | ']' :: rest2 => some (Json.arr JsonItems.nil, rest2)
        | cs2 => Option.map (fun p => (Json.arr p.1, p.2)) (parseItems fuel cs2)
      else if c = '\x7b' then
        match skipWs rest with
        | '\x7d' :: rest2 => some (Json.obj JsonFields.nil, rest2)
        | cs2 => Option.map (fun p => (Json.obj p.1, p.2)) (parseFields fuel cs2)
      else none

/-- Parse `value (, value)* ]` inside an array. -/
def parseItems : Nat → List Char → Option (JsonItems × List Char)
  | 0, _ => none
  | fuel + 1, cs =>
    match parseValue fuel cs with
    | none => none
    | some (j, rest) =>
      match skipWs rest with
      | [] => none
      | c :: rest2 =>
        if c = ',' then
          Option.map (fun p => (JsonItems.cons j p.1, p.2)) (parseItems fuel (skipWs rest2))
        else if c = ']' then some (JsonItems.cons j JsonItems.nil, rest2)
        else none

/-- Parse `"key": value (, "key": value)* }` inside an object. -/
def parseFields : Nat → List Char → Option (JsonFields × List Char)
  | 0, _ => none
  | fuel + 1, cs =>
    match cs with
    | '"' :: rest =>
      match parseStrBody (fuel + 1) rest [] with
      | none => none
      | some (key, rest2) =>
        match skipWs rest2 with
        | ':' :: rest3 =>
          match parseValue fuel (skipWs rest3) with
          | none => none
          | some (v, rest4) =>
            match skipWs rest4 with
            | [] => none
            | c :: rest5 =>
              if c = ',' then
                Option.map (fun p => (JsonFields.cons key v p.1, p.2))
                  (parseFields fuel (skipWs rest5))
              else if c = '\x7d' then some (JsonFields.cons key v JsonFields.nil, rest5)
              else none
        | _ => none
    | _ => none
end

/-- Parse a complete JSON document: optional whitespace, one value,
optional whitespace, end of input.  Returns `some` exactly when Go
`json.Valid` accepts the text (the scanner checks syntax only), giving
the syntax tree with number lexemes kept verbatim.  Go `json.Unmarshal`
additionally converts each number lexeme to `float64`, which fails for
out-of-range values — that conversion step is modelled separately by
`unmarshalJson` below.  (Duplicate object keys are kept in order; Go
keeps the last — no claim exercises duplicates.) -/
def parseJson (cs : List Char) : Option Json :=
  match parseValue (2 * cs.length + 2) (skipWs cs) with
  | some (j, rest) => if (skipWs rest).isEmpty then some j else none
  | none => none

/-! ## Number decoding (Go `strconv.ParseFloat` range check)

Go `json.Unmarshal` into `interface{}` converts every number lexeme with
`strconv.ParseFloat(s, 64)`.  The conversion is exactly rounded; it
fails (`ErrRange`) precisely when the decimal value's magnitude reaches
`2^1024 - 2^970` — the point from which round-to-nearest-even overflows
to infinity (values that underflow convert to 0 without error).  On a
failed conversion the decoder stores the error (which `strToObj`
discards) and uses the untyped nil, i.e. JSON null, for that value, and
decoding continues.  The check below decides the overflow condition by
exact integer arithmetic on the lexeme: mantissa digits with the
decimal-point position, and the exponent accumulated with Go
`readFloat`'s saturation (digits stop accumulating once the exponent
reaches 10000, which is already far beyond the decisive range). -/

/-- Exponent-digit accumulation with Go `readFloat`'s saturation. -/
def expDigits : Nat → List Char → Nat
  | e, [] => e
  | e, c :: r => if e < 10000 then expDigits (e * 10 + (c.toNat - 48)) r else expDigits e r

def natOfDigits (ds : List Char) : Nat :=
  ds.foldl (fun acc c => acc * 10 + (c.toNat - 48)) 0

/-- Whether a (syntactically valid) JSON number lexeme denotes a value
whose magnitude overflows `float64`, i.e. `ParseFloat` returns a range
error on it.  Sign is irrelevant to the magnitude test. -/
def numOutOfRange (cs : List Char) : Bool :=
  let cs1 : List Char :=
    match cs with
    | c :: r => if c = '-' then r else c :: r
    | [] => []
  let ipp := lexDigits cs1
  let fpp : List Char × List Char :=
    match ipp.2 with
    | c :: r => if c = '.' then lexDigits r else ([], ipp.2)
    | [] => ([], [])
  let expv : Int :=
    match fpp.2 with
    | c :: r =>
      if c = 'e' ∨ c = 'E' then
        match r with
        | s :: r2 =>
          if s = '-' then -(Int.ofNat (expDigits 0 (lexDigits r2).1))
          else if s = '+' then Int.ofNat (expDigits 0 (lexDigits r2).1)
          else Int.ofNat (expDigits 0 (lexDigits (s :: r2)).1)
        | [] => 0
      else 0
    | [] => 0
  let digits := ipp.1 ++ fpp.1
  let sig := digits.dropWhile (fun c => c = '0')
  if sig.isEmpty then false
  else
    let lz : Nat := digits.length - sig.length
    let dp : Int := Int.ofNat ipp.1.length + expv - Int.ofNat lz
    if dp > 310 then true
    else if dp < -330 then false
    else
      let e : Int := dp - Int.ofNat sig.length
      let mant : Nat := natOfDigits sig
      if 0 ≤ e then
        decide (2 ^ 970 * (2 ^ 54 - 1) ≤ mant * 10 ^ e.toNat)
      else
        decide (2 ^ 970 * (2 ^ 54 - 1) * 10 ^ (-e).toNat ≤ mant)

mutual
/-- Whether every number lexeme in a parsed value converts to `float64`
without a range error (so Go decodes the tree unchanged, up to the
float64 value identification no claim depends on). -/
def numsInRange : Json → Bool
  | Json.num lit => !numOutOfRange lit.data
  | Json.arr items => numsInRangeItems items
  | Json.obj fields => numsInRangeFields fields
  | _ => true
def numsInRangeItems : JsonItems → Bool
  | JsonItems.nil => true
  | JsonItems.cons j tl => numsInRange j && numsInRangeItems tl
def numsInRangeFields : JsonFields → Bool
  | JsonFields.nil => true
  | JsonFields.cons _ v tl => numsInRange v && numsInRangeFields tl
end

mutual
/-- The value Go `json.Unmarshal` leaves in `interface{}` for a parsed
tree: every out-of-range number becomes the untyped nil (JSON null) —
the decoder saves the conversion error, which the caller discards, and
keeps decoding — and everything else is kept. -/
def unmarshalJson : Json → Json
  | Json.num lit => if numOutOfRange lit.data then Json.null else Json.num lit
  | Json.arr items => Json.arr (unmarshalItems items)
  | Json.obj fields => Json.obj (unmarshalFields fields)
  | j => j
def unmarshalItems : JsonItems → JsonItems
  | JsonItems.nil => JsonItems.nil
  | JsonItems.cons j tl => JsonItems.cons (unmarshalJson j) (unmarshalItems tl)
def unmarshalFields : JsonFields → JsonFields
  | JsonFields.nil => JsonFields.nil
  | JsonFields.cons k v tl => JsonFields.cons k (unmarshalJson v) (unmarshalFields tl)
end

/-! ## JSON serialization (Go `json.Marshal`) -/

def hexDigit (n : Nat) : Char :=
  if n < 10 then Char.ofNat (48 + n) else Char.ofNat (87 + n)

/-- Escape one character the way Go `encoding/json` does when writing a
string value: quote, backslash, the HTML characters, newline, carriage
return, tab, and other control characters. -/
def escJChar (c : Char) : List Char :=
  if c = '"' then ['\\', '"']
  else if c = '\\' then ['\\', '\\']
  else if c = '\n' then ['\\', 'n']
  else if c = '\r' then ['\\', 'r']
  else if c = '\t' then ['\\', 't']
  else if c = '<' then "\\u003c".data
  else if c = '>' then "\\u003e".data
  else if c = '&' then "\\u0026".data
  else if c.toNat < 0x20 then
    "\\u00".data ++ [hexDigit (c.toNat / 16), hexDigit (c.toNat % 16)]
  else [c]

def escJString : List Char → List Char
  | [] => []
  | c :: cs => escJChar c ++ escJString cs

/-- Byte-wise `≤` on strings as Go compares map keys for sorted marshal
output (code points coincide with byte order for the ASCII keys the
claims use). -/
def lexLe : List Char → List Char → Bool
  | [], _ => true
  | _ :: _, [] => false
  | a :: as_, b :: bs =>
    if a.toNat < b.toNat then true
    else if b.toNat < a.toNat then false
    else lexLe as_ bs

def fieldsInsert (k : String) (v : Json) : JsonFields → JsonFields
  | JsonFields.nil => JsonFields.cons k v JsonFields.nil
  | JsonFields.cons k2 v2 tl =>
    if lexLe k.data k2.data then JsonFields.cons k v (JsonFields.cons k2 v2 tl)
    else JsonFields.cons k2 v2 (fieldsInsert k v tl)

/-- Go marshals a `map[string]interface{}` with its keys sorted. -/
def fieldsSort : JsonFields → JsonFields
  | JsonFields.nil => JsonFields.nil
  | JsonFields.cons k v tl => fieldsInsert k v (fieldsSort tl)

mutual
/-- Recursively sort every object's field list by key — the order in
which Go `json.Marshal` (and `fmt` for maps) visits map entries.
Applying this pre-pass keeps the renderers structurally recursive. -/
def sortJson : Json → Json
  | Json.arr items => Json.arr (sortItems items)
  | Json.obj fields => Json.obj (fieldsSort (sortFields fields))
  | j => j
def sortItems : JsonItems → JsonItems
  | JsonItems.nil => JsonItems.nil
  | JsonItems.cons j tl => JsonItems.cons (sortJson j) (sortItems tl)
def sortFields : JsonFields → JsonFields
  | JsonFields.nil => JsonFields.nil
  | JsonFields.cons k v tl => JsonFields.cons k (sortJson v) (sortFields tl)
end

mutual
/-- Compact serialization of an already key-sorted JSON value. -/
def renderSorted : Json → List Char
  | Json.null => "null".data
  | Json.bool b => if b then "true".data else "false".data
  | Json.num lit => lit.data
  | Json.str s => '"' :: escJString s.data ++ ['"']
  | Json.arr items => '[' :: renderItems items ++ [']']
  | Json.obj fields => '\x7b' :: renderFields fields ++ ['\x7d']
def renderItems : JsonItems → List Char
  | JsonItems.nil => []
  | JsonItems.cons j JsonItems.nil => renderSorted j
  | JsonItems.cons j (JsonItems.cons j2 tl) =>
    renderSorted j ++ ',' :: renderItems (JsonItems.cons j2 tl)
def renderFields : JsonFields → List Char
  | JsonFields.nil => []
  | JsonFields.cons k v JsonFields.nil =>
    '"' :: escJString k.data ++ '"' :: ':' :: renderSorted v
  | JsonFields.cons k v (JsonFields.cons k2 v2 tl) =>
    '"' :: escJString k.data ++ '"' :: ':' :: renderSorted v ++
      ',' :: renderFields (JsonFields.cons k2 v2 tl)
end

/-- Compact serialization of a JSON value, as Go `json.Marshal` renders a
value that came out of `json.Unmarshal` (object keys sorted). -/
def renderJson (j : Json) : List Char := renderSorted (sortJson j)

mutual
/-- Indented serialization of an already key-sorted JSON value, as Go
`json.MarshalIndent(v, "", "   ")` renders it: elements one per line,
`": "` after object keys, the indent repeated per nesting level. -/
def renderSortedInd : List Char → Json → List Char
  | _, Json.arr JsonItems.nil => "[]".data
  | ind, Json.arr items =>
    '[' :: '\n' :: renderItemsInd (ind ++ "   ".data) items ++ '\n' :: ind ++ [']']
  | _, Json.obj JsonFields.nil => "\x7b\x7d".data
  | ind, Json.obj fields =>
    '\x7b' :: '\n' :: renderFieldsInd (ind ++ "   ".data) fields ++
      '\n' :: ind ++ ['\x7d']
  | _, j => renderSorted j
def renderItemsInd : List Char → JsonItems → List Char
  | _, JsonItems.nil => []
  | ind, JsonItems.cons j JsonItems.nil => ind ++ renderSortedInd ind j
  | ind, JsonItems.cons j (JsonItems.cons j2 tl) =>
    ind ++ renderSortedInd ind j ++ ',' :: '\n' ::
      renderItemsInd ind (JsonItems.cons j2 tl)
def renderFieldsInd : List Char → JsonFields → List Char
  | _, JsonFields.nil => []
  | ind, JsonFields.cons k v JsonFields.nil =>
    ind ++ '"' :: escJString k.data ++ '"' :: ':' :: ' ' :: renderSortedInd ind v
  | ind, JsonFields.cons k v (JsonFields.cons k2 v2 tl) =>
    ind ++ '"' :: escJString k.data ++ '"' :: ':' :: ' ' :: renderSortedInd ind v ++
      ',' :: '\n' :: renderFieldsInd ind (JsonFields.cons k2 v2 tl)
end

/-- Indented serialization of a JSON value, as Go
`json.MarshalIndent(v, "", "   ")` renders it. -/
def renderJsonInd (ind : List Char) (j : Json) : List Char :=
  renderSortedInd ind (sortJson j)

/-! ## Log-call arguments and Go `fmt`

A log call receives variadic `interface{}` arguments.  The embedding
models the argument kinds the pipeline distinguishes: the untyped `nil`,
strings (the `case string:` branch of `adaptMessage`), integers, and any
other JSON-marshalable value given by its JSON shape (modelled as a Go
map/slice value). -/

inductive Arg where
  | nil : Arg
  | str (s : String) : Arg
  | int (n : Int) : Arg
  | json (j : Json) : Arg

def natDigits : Nat → Nat → List Char
  | 0, _ => []
  | fuel + 1, n =>
    if n < 10 then [Char.ofNat (48 + n)]
    else natDigits fuel (n / 10) ++ [Char.ofNat (48 + n % 10)]

def natRepr (n : Nat) : List Char := natDigits (n + 1) n

def intRepr : Int → List Char
  | Int.ofNat n => natRepr n
  | Int.negSucc n => '-' :: natRepr (n + 1)

mutual
/-- Go `fmt` `%v` representation of an already key-sorted structured
(map/slice-like) value.  Maps print as `map[k:v ...]` with sorted keys,
slices as `[a b]`.  Numbers print their JSON lexeme (Go would print the
`float64`; no claim formats structured numbers). -/
def goVSorted : Json → List Char
  | Json.null => "<nil>".data
  | Json.bool b => if b then "true".data else "false".data
  | Json.num lit => lit.data
  | Json.str s => s.data
  | Json.arr items => '[' :: goVItems items ++ [']']
  | Json.obj fields => "map[".data ++ goVFields fields ++ [']']
def goVItems : JsonItems → List Char
  | JsonItems.nil => []
  | JsonItems.cons j JsonItems.nil => goVSorted j
  | JsonItems.cons j (JsonItems.cons j2 tl) =>
    goVSorted j ++ ' ' :: goVItems (JsonItems.cons j2 tl)
def goVFields : JsonFields → List Char
  | JsonFields.nil => []
  | JsonFields.cons k v JsonFields.nil => k.data ++ ':' :: goVSorted v
  | JsonFields.cons k v (JsonFields.cons k2 v2 tl) =>
    k.data ++ ':' :: goVSorted v ++ ' ' :: goVFields (JsonFields.cons k2 v2 tl)
end

def goV (j : Json) : List Char := goVSorted (sortJson j)

/-- Go `fmt` default (`%v`) textual representation of an argument. -/
def reprV : Arg → List Char
  | Arg.nil => "<nil>".data
  | Arg.str s => s.data
  | Arg.int n => intRepr n
  | Arg.json j => goV j

/-- Go type name of an argument as `fmt` prints it in error annotations. -/
def typeNameOf : Arg → List Char
  | Arg.nil => "<nil>".data
  | Arg.str _ => "string".data
  | Arg.int _ => "int".data
  | Arg.json _ => "interface \x7b\x7d".data

/-- Go `json.Marshal` of one argument value. -/
def marshalArg : Arg → String
  | Arg.nil => "null"
  | Arg.str s => String.mk (renderJson (Json.str s))
  | Arg.int n => String.mk (intRepr n)
  | Arg.json j => String.mk (renderJson j)

/-- A `fmt` bad-verb / wrong-type annotation `%!c(type=value)`. -/
def badVerb (c : Char) (a : Arg) : List Char :=
  '%' :: '!' :: c :: '(' :: typeNameOf a ++ '=' :: reprV a ++ [')']

/-- Formatting of one verb applied to one operand, for the verbs the
claims exercise (`%v`, `%d`, `%s`); any other verb yields Go's
`%!c(type=value)` annotation (simplification: flags and widths are not
parsed; no claim uses them). -/
def verbOut (c : Char) (a : Arg) : List Char :=
  if c = 'v' then reprV a
  else
    match a with
    | Arg.nil => '%' :: '!' :: c :: "(<nil>)".data
    | _ =>
      if c = 'd' then
        match a with
        | Arg.int n => intRepr n
        | _ => badVerb c a
      else if c = 's' then
        match a with
        | Arg.str s => s.data
        | _ => badVerb c a
      else badVerb c a

def joinCommaSp : List (List Char) → List Char
  | [] => []
  | [x] => x
  | x :: y :: xs => x ++ ',' :: ' ' :: joinCommaSp (y :: xs)

def extraItem (a : Arg) : List Char :=
  match a with
  | Arg.nil => "<nil>".data
  | _ => typeNameOf a ++ '=' :: reprV a

/-- Go `fmt`'s trailing annotation for unconsumed arguments. -/
def extrasOut (args : List Arg) : List Char :=
  "%!(EXTRA ".data ++ joinCommaSp (args.map extraItem) ++ [')']

/-- Go `fmt.Sprintf` of a format string against a list of operands:
`%%` emits a percent sign and consumes nothing, a verb with no operand
left emits `%!c(MISSING)`, a trailing `%` emits `%!(NOVERB)`, leftover
operands are reported as `%!(EXTRA ...)`. -/
def sprintf : List Char → List Arg → List Char
  | [], args => if args.isEmpty then [] else extrasOut args
  | c :: cs, args =>
    if c = '%' then
      match cs with
      | [] => "%!(NOVERB)".data ++ (if args.isEmpty then [] else extrasOut args)
      | c2 :: cs2 =>
        if c2 = '%' then '%' :: sprintf cs2 args
        else
          match args with
          | [] => '%' :: '!' :: c2 :: ("(MISSING)".data ++ sprintf cs2 [])
          | a :: rest => verbOut c2 a ++ sprintf cs2 rest
    else c :: sprintf cs args

/-! ## The redaction regexes (logger.go `obscureParam`)

`obscureParam` builds two Go regexps from the parameter name and applies
`ReplaceAllString` with each in turn:

    rWithSlash:    \"param\":.*?"(.*?)\"     replaced by  \"param\": \"**********\"
    rWithoutSlash: "param":.*?"(.*?)"        replaced by  "param": "**********"

Go regexp matching is leftmost-first with Perl semantics; `.` does not
match a newline; `ReplaceAllString` replaces non-overlapping matches left
to right, resuming after each match.  For these two shapes
(literal, lazy gap, opening quote, lazy capture, closing delimiter) a
match at a given start exists iff the literal occurs there, followed —
with no intervening newline — by an opening `"` and then the closing
delimiter; laziness picks the first opening quote and the first closing
delimiter after it.  The parameter name is interpolated verbatim, so this
model (like the source) is only faithful for names without regex
metacharacters; the claims use `password`. -/

/-- Index of the first `"` reachable without crossing a newline. -/
def findQuote : List Char → Option Nat
  | [] => none
  | c :: cs =>
    if c = '"' then some 0
    else if c = '\n' then none
    else Option.map (· + 1) (findQuote cs)

/-- Index of the first `\"` two-character sequence reachable without
crossing a newline. -/
def findEscQuote : List Char → Option Nat
  | [] => none
  | c :: cs =>
    if c = '\\' then
      match cs with
      | c2 :: _ =>
        if c2 = '"' then some 0 else Option.map (· + 1) (findEscQuote cs)
      | [] => none
    else if c = '\n' then none
    else Option.map (· + 1) (findEscQuote cs)

/-- Length of the leftmost-first match of `lit.*?"(.*?)"` at the head of
`cs`, if any. -/
def matchPlainAt (lit cs : List Char) : Option Nat :=
  match litPrefix lit cs with
  | none => none
  | some rest =>
    match findQuote rest with
    | none => none
    | some i1 =>
      match findQuote (rest.drop (i1 + 1)) with
      | none => none
      | some i2 => some (lit.length + i1 + 1 + i2 + 1)

/-- Length of the leftmost-first match of `lit.*?"(.*?)\"` at the head of
`cs`, if any. -/
def matchEscAt (lit cs : List Char) : Option Nat :=
  match litPrefix lit cs with
  | none => none
  | some rest =>
    match findQuote rest with
    | none => none
    | some i1 =>
      match findEscQuote (rest.drop (i1 + 1)) with
      | none => none
      | some j => some (lit.length + i1 + 1 + j + 2)

/-- Go `Regexp.ReplaceAllString`: scan left to right, replace each
leftmost match, resume after its end (replacements are not rescanned). -/
def replaceScan (matchAt : List Char → Option Nat) (repl : List Char) :
    Nat → List Char → List Char
  | 0, cs => cs
  | _ + 1, [] => []
  | fuel + 1, c :: cs =>
    match matchAt (c :: cs) with
    | some len => repl ++ replaceScan matchAt repl fuel ((c :: cs).drop len)
    | none => c :: replaceScan matchAt repl fuel cs

def mask10 : List Char := "**********".data

def escLit (param : List Char) : List Char :=
  '\\' :: '"' :: param ++ ('\\' :: '"' :: [':'])

def escRepl (param : List Char) : List Char :=
  '\\' :: '"' :: param ++ ('\\' :: '"' :: ':' :: ' ' :: '\\' :: '"' :: mask10) ++
    ['\\', '"']

def plainLit (param : List Char) : List Char := '"' :: param ++ ['"', ':']

def plainRepl (param : List Char) : List Char :=
  '"' :: param ++ ('"' :: ':' :: ' ' :: '"' :: mask10) ++ ['"']

/-- logger.go `obscureParam`: apply the escaped-quote regex, then the
plain regex. -/
def obscureParam (jsn : List Char) (param : List Char) : List Char :=
  let a := replaceScan (matchEscAt (escLit param)) (escRepl param) jsn.length jsn
  replaceScan (matchPlainAt (plainLit param)) (plainRepl param) a.length a

/-- logger.go `obscureSensitiveData`: fold `obscureParam` over the
configured parameter names in order. -/
def obscureSensitiveData (params : List String) (s : String) : String :=
  String.mk (params.foldl (fun j p => obscureParam j p.data) s.data)

/-! ## Severity levels

Modelled from the spec: the file declaring the level label and rank
constants is not under src/ (logger.go references `traceLabel`,
`traceLevel`, … from elsewhere in the package).  Spec §3 fixes the label
set and the strictly increasing rank order trace < debug < info < warn <
error < panic < fatal; the `logLevel == 0` fallback in logger.go
`LogLevel` requires every rank to be nonzero, so the ranks are modelled
as 1..7. -/

def traceLabel : String := "trace"
def debugLabel : String := "debug"
def infoLabel : String := "info"
def warnLabel : String := "warn"
def errorLabel : String := "error"
def panicLabel : String := "panic"
def fatalLabel : String := "fatal"

def traceLevel : Nat := 1
def debugLevel : Nat := 2
def infoLevel : Nat := 3
def warnLevel : Nat := 4
def errorLevel : Nat := 5
def panicLevel : Nat := 6
def fatalLevel : Nat := 7

/-- The `logLevels` map of logger.go as a function; a missing key yields
the Go zero value 0. -/
def logLevels (name : String) : Nat :=
  if name = traceLabel then traceLevel
  else if name = debugLabel then debugLevel
  else if name = infoLabel then infoLevel
  else if name = warnLabel then warnLevel
  else if name = errorLabel then errorLevel
  else if name = panicLabel then panicLevel
  else if name = fatalLabel then fatalLevel
  else 0

/-- logger.go `LogLevel` as a pure function: the threshold value the
setter stores for a given level name (a missing map entry gives 0, which
falls back to `infoLevel`). -/
def LogLevel (level : String) : Nat :=
  let l := logLevels level
  if l = 0 then infoLevel else l

/-! ## Configuration state

The package-level configuration globals of logger.go, gathered into one
record and passed explicitly. -/

structure Config where
  logLevel : Nat := infoLevel
  jsonPrettyPrint : Bool := false
  obscureSensitiveDataEnabled : Bool := false
  sensitiveParams : List String := []
  traceCallerEnabled : Bool := false
  colorEnabled : Bool := false

def defaultConfig : Config := {}

/-- The configuration of the spec's redaction example: redaction enabled
with the single sensitive field `password`. -/
def passwordConfig : Config :=
  { obscureSensitiveDataEnabled := true, sensitiveParams := ["password"] }

/-! ## Message composition (logger.go `composeMessage` and helpers) -/

/-- The normalized message stored in the envelope: a plain string, a
parsed JSON value, or a non-string Go value passed through unchanged. -/
inductive MsgValue where
  | str (s : String) : MsgValue
  | json (j : Json) : MsgValue
  | go (a : Arg) : MsgValue

/-- logger.go `strToObj`: if the string is valid JSON (Go `json.Valid`),
unmarshal it and return the decoded value, else return the string.  The
source discards the `json.Unmarshal` error (`_ = json.Unmarshal`), so a
valid text containing an out-of-`float64`-range number still returns
what decoding left behind: the tree with that number replaced by the
untyped nil — for a top-level out-of-range number, nil itself, rendered
as null in the envelope. -/
def strToObj (strMsg : String) : MsgValue :=
  match parseJson strMsg.data with
  | some j => MsgValue.json (unmarshalJson j)
  | none => MsgValue.str strMsg

/-- logger.go `adaptMessage`.  For strings: optionally redact, then JSON
detection via `strToObj`.  For any other value: if redacting, marshal,
redact the text and re-detect; else pass the value through. -/
def adaptMessage (cfg : Config) (message : Arg) : MsgValue :=
  match message with
  | Arg.str s =>
    if cfg.obscureSensitiveDataEnabled && !cfg.sensitiveParams.isEmpty then
      strToObj (obscureSensitiveData cfg.sensitiveParams s)
    else strToObj s
  | _ =>
    if cfg.obscureSensitiveDataEnabled && !cfg.sensitiveParams.isEmpty then
      strToObj (obscureSensitiveData cfg.sensitiveParams (marshalArg message))
    else MsgValue.go message

/-- The string the `case string:` branch of `adaptMessage` actually
adapts: the argument itself, redacted first when redaction is enabled
and the sensitive-parameter set is non-empty. -/
def redactedInput (cfg : Config) (s : String) : String :=
  if cfg.obscureSensitiveDataEnabled && !cfg.sensitiveParams.isEmpty then
    obscureSensitiveData cfg.sensitiveParams s
  else s

/-- The `fmt.Fprintf(&b, "%v ", m)` loop body of logger.go `stringify`:
every non-nil argument's `%v` form followed by one space. -/
def stringifyAcc : List Arg → List Char
  | [] => []
  | m :: rest =>
    match m with
    | Arg.nil => stringifyAcc rest
    | _ => reprV m ++ ' ' :: stringifyAcc rest

/-- logger.go `stringify`.  The source evaluates `msg[:len(msg)-1]`,
which panics (slice bounds out of range) when the built string is empty
— i.e. when every argument is nil; the panic is modelled as `none`. -/
def stringify (message : List Arg) : Option String :=
  match stringifyAcc message with
  | [] => none
  | c :: cs => some (String.mk ((c :: cs).dropLast))

/-- Go `strings.Contains(s, "%")`. -/
def hasPct : List Char → Bool
  | [] => false
  | c :: cs => if c = '%' then true else hasPct cs

/-- logger.go `composeMessage`: empty call → empty string; one argument →
`adaptMessage`; several arguments whose first is a string containing a
percent character → `fmt.Sprintf` of the rest into it; otherwise the
`stringify` concatenation.  `none` models the `stringify` panic. -/
def composeMessage (cfg : Config) (message : List Arg) : Option MsgValue :=
  match message with
  | [] => some (MsgValue.str "")
  | [m] => some (adaptMessage cfg m)
  | m0 :: m1 :: rest =>
    match m0 with
    | Arg.str s =>
      if hasPct s.data then
        some (MsgValue.str (String.mk (sprintf s.data (m1 :: rest))))
      else Option.map MsgValue.str (stringify (m0 :: m1 :: rest))
    | _ => Option.map MsgValue.str (stringify (m0 :: m1 :: rest))

/-! ## The envelope (record struct and logger.go `composeLog`)

Modelled from the spec: the `record` struct declaration is not under
src/; spec §3/§6 fix its shape — `level` (string), `message` (any JSON
value), `time` (string), optional `file`/`function` present iff caller
tracing is enabled, serialized in that order.  The current time string
and the `traceCaller()` results are effects, passed as parameters. -/

structure Record where
  level : String
  message : MsgValue
  time : String
  file : Option String
  function : Option String

/-- The `Time` field expression of logger.go `composeLog`:
`strings.Split(time.Now().String(), "m")[0]`, i.e. the prefix of the
time string before its first `m` character. -/
def timeField (now : String) : String :=
  String.mk (now.data.takeWhile (fun c => c ≠ 'm'))

/-- The envelope value logger.go `composeLog` builds before marshalling
(`none` models the `stringify` panic propagating). -/
def composeRecord (cfg : Config) (now cFile cFn : String) (level : String)
    (message : List Arg) : Option Record :=
  Option.map
    (fun m =>
      { level := level
        message := m
        time := timeField now
        file := if cfg.traceCallerEnabled then some cFile else none
        function := if cfg.traceCallerEnabled then some cFn else none })
    (composeMessage cfg message)

/-- How the envelope's `message` field marshals: a parsed JSON value and
a plain string embed directly; a passed-through Go value embeds as its
JSON shape. -/
def msgToJson : MsgValue → Json
  | MsgValue.str s => Json.str s
  | MsgValue.json j => j
  | MsgValue.go a =>
    match a with
    | Arg.nil => Json.null
    | Arg.str s => Json.str s
    | Arg.int n => Json.num (String.mk (intRepr n))
    | Arg.json j => j

/-- The envelope as a JSON value (struct marshalling keeps field order;
`omitempty` drops the nil `file`/`function` pointers). -/
def recordToJson (r : Record) : Json :=
  Json.obj
    (JsonFields.cons "level" (Json.str r.level)
      (JsonFields.cons "message" (msgToJson r.message)
        (JsonFields.cons "time" (Json.str r.time)
          (match r.file with
            | some f =>
              JsonFields.cons "file" (Json.str f)
                (match r.function with
                  | some fx => JsonFields.cons "function" (Json.str fx) JsonFields.nil
                  | none => JsonFields.nil)
            | none =>
              match r.function with
              | some fx => JsonFields.cons "function" (Json.str fx) JsonFields.nil
              | none => JsonFields.nil))))

/-- Field lookup in a JSON object value. -/
def fieldsLookup (k : String) : JsonFields → Option Json
  | JsonFields.nil => none
  | JsonFields.cons key v tl => if k = key then some v else fieldsLookup k tl

def jsonObjLookup (k : String) : Json → Option Json
  | Json.obj fields => fieldsLookup k fields
  | _ => none

/-- Compact `json.Marshal` of the record struct: fields in declaration
order, `omitempty` pointers dropped when nil. -/
def renderRecord (r : Record) : List Char :=
  "\x7b\"level\":".data ++ renderJson (Json.str r.level) ++
    ",\"message\":".data ++ renderJson (msgToJson r.message) ++
    ",\"time\":".data ++ renderJson (Json.str r.time) ++
    (match r.file with
      | some f => ",\"file\":".data ++ renderJson (Json.str f)
      | none => []) ++
    (match r.function with
      | some fx => ",\"function\":".data ++ renderJson (Json.str fx)
      | none => []) ++
    ['\x7d']

/-- `json.MarshalIndent(r, "", "   ")` of the record struct. -/
def renderRecordInd (r : Record) : List Char :=
  "\x7b\n   \"level\": ".data ++ renderJsonInd "   ".data (Json.str r.level) ++
    ",\n   \"message\": ".data ++ renderJsonInd "   ".data (msgToJson r.message) ++
    ",\n   \"time\": ".data ++ renderJsonInd "   ".data (Json.str r.time) ++
    (match r.file with
      | some f => ",\n   \"file\": ".data ++ renderJsonInd "   ".data (Json.str f)
      | none => []) ++
    (match r.function with
      | some fx => ",\n   \"function\": ".data ++ renderJsonInd "   ".data (Json.str fx)
      | none => []) ++
    "\n\x7d".data

/-- Modelled from the spec: the per-level color table and reset sequence
(`colorMap`, `colorReset`) are defined outside src/.  Spec §3 gives the
default palette trace=default, info=default, debug=green, warn=yellow,
error=red; ANSI escape sequences are used, `\x1b[39m` standing for the
terminal's default foreground. -/
def colorMap (level : String) : String :=
  if level = debugLabel then "\x1b[32m"
  else if level = warnLabel then "\x1b[33m"
  else if level = errorLabel then "\x1b[31m"
  else "\x1b[39m"

def colorReset : String := "\x1b[0m"

/-- logger.go `composeLog`: build the envelope, marshal it (indented if
pretty-printing is on), and wrap it in color escapes if colors are on.
`none` models the `stringify` panic propagating out of composition. -/
def composeLog (cfg : Config) (now cFile cFn : String) (level : String)
    (message : List Arg) : Option String :=
  Option.map
    (fun r =>
      let jsn := if cfg.jsonPrettyPrint then renderRecordInd r else renderRecord r
      let colored :=
        if cfg.colorEnabled then (colorMap level).data ++ jsn ++ colorReset.data
        else jsn
      String.mk colored)
    (composeRecord cfg now cFile cFn level message)

/-! ## Dispatch and sink behaviour -/

/-- How a log call ends: normally, in a Go panic carrying a payload, or
in `os.Exit`. -/
inductive Termination where
  | normal : Termination
  | panicked (payload : String) : Termination
  | exited (code : Nat) : Termination

/-- What one log call does: the bytes written to the sink (if any) and
how the call terminates. -/
structure CallOutcome where
  sink : Option String
  term : Termination

/-- The payload of the Go runtime panic raised by `msg[:len(msg)-1]` on
an empty string in logger.go `stringify`. -/
def runtimeSliceErr : String := "runtime error: slice bounds out of range [:-1]"

/-- logger.go `printLog`: if the label's rank reaches the threshold, the
rendered record is handed to `fmt.Fprintf(logWriter, record)` — as the
format string, with no operands.  Below the threshold nothing is
evaluated; at or above it, a composition panic escapes. -/
def printLog (cfg : Config) (now cFile cFn : String) (label : String)
    (message : List Arg) : CallOutcome :=
  if logLevels label ≥ cfg.logLevel then
    match composeLog cfg now cFile cFn label message with
    | some s => { sink := some (String.mk (sprintf s.data [])), term := Termination.normal }
    | none => { sink := none, term := Termination.panicked runtimeSliceErr }
  else { sink := none, term := Termination.normal }

def Trace (cfg : Config) (now cFile cFn : String) (message : List Arg) : CallOutcome :=
  printLog cfg now cFile cFn traceLabel message

def Debug (cfg : Config) (now cFile cFn : String) (message : List Arg) : CallOutcome :=
  printLog cfg now cFile cFn debugLabel message

def Info (cfg : Config) (now cFile cFn : String) (message : List Arg) : CallOutcome :=
  printLog cfg now cFile cFn infoLabel message

def Warn (cfg : Config) (now cFile cFn : String) (message : List Arg) : CallOutcome :=
  printLog cfg now cFile cFn warnLabel message

def Error (cfg : Config) (now cFile cFn : String) (message : List Arg) : CallOutcome :=
  printLog cfg now cFile cFn errorLabel message

/-- logger.go `Panic`: `panic(composeLog(panicLabel, message))` — always
composes (no threshold test), writes nothing, and panics with the
rendered record (or with the runtime error if composition panics while
the argument is evaluated). -/
def Panic (cfg : Config) (now cFile cFn : String) (message : List Arg) : CallOutcome :=
  match composeLog cfg now cFile cFn panicLabel message with
  | some s => { sink := none, term := Termination.panicked s }
  | none => { sink := none, term := Termination.panicked runtimeSliceErr }

/-- logger.go `Fatal`: `printLog(fatalLabel, message)` then `os.Exit(1)`
(not reached if printing panicked). -/
def Fatal (cfg : Config) (now cFile cFn : String) (message : List Arg) : CallOutcome :=
  match printLog cfg now cFile cFn fatalLabel message with
  | { sink := s, term := Termination.normal } => { sink := s, term := Termination.exited 1 }
  | o => o

/-- The six non-panic leveled entry points, dispatched by label (the
default arm is never reached from the labels the claims quantify over). -/
def entryCall (label : String) (cfg : Config) (now cFile cFn : String)
    (message : List Arg) : CallOutcome :=
  if label = traceLabel then Trace cfg now cFile cFn message
  else if label = debugLabel then Debug cfg now cFile cFn message
  else if label = infoLabel then Info cfg now cFile cFn message
  else if label = warnLabel then Warn cfg now cFile cFn message
  else if label = errorLabel then Error cfg now cFile cFn message
  else if label = fatalLabel then Fatal cfg now cFile cFn message
  else { sink := none, term := Termination.normal }

/-! ## Helper lemmas -/

theorem adaptMessage_str (cfg : Config) (s : String) :
    adaptMessage cfg (Arg.str s) = strToObj (redactedInput cfg s) := by
  unfold adaptMessage redactedInput
  by_cases h : (cfg.obscureSensitiveDataEnabled && !cfg.sensitiveParams.isEmpty) = true
  · simp [h]
  · simp [h]

theorem composeRecord_single_str (cfg : Config) (now cFile cFn lbl s : String) :
    composeRecord cfg now cFile cFn lbl [Arg.str s] =
      some
        { level := lbl
          message := adaptMessage cfg (Arg.str s)
          time := timeField now
          file := if cfg.traceCallerEnabled then some cFile else none
          function := if cfg.traceCallerEnabled then some cFn else none } := rfl

theorem recordToJson_message (r : Record) :
    jsonObjLookup "message" (recordToJson r) = some (msgToJson r.message) := by
  simp [recordToJson, jsonObjLookup, fieldsLookup]

theorem sprintf_cons_ne {c : Char} (h : ¬c = '%') (cs : List Char) (args : List Arg) :
    sprintf (c :: cs) args = c :: sprintf cs args := by
  rw [sprintf.eq_def]
  simp [h]

theorem sprintf_pct_pct (cs : List Char) (args : List Arg) :
    sprintf ('%' :: '%' :: cs) args = '%' :: sprintf cs args := by
  simp [sprintf]

theorem sprintf_pct_single : sprintf ['%'] [] = "%!(NOVERB)".data := by
  simp [sprintf]

theorem sprintf_pct_verb {c : Char} (h : ¬c = '%') (cs : List Char) :
    sprintf ('%' :: c :: cs) [] =
      '%' :: '!' :: c :: ("(MISSING)".data ++ sprintf cs []) := by
  simp [sprintf, h]

/-- A format string is never a nonempty percent-free extension of its own
no-operand formatting (key step for the self-difference of `Fprintf`). -/
theorem sprintf_no_self_extension :
    ∀ (n : Nat) (r Q : List Char), r.length ≤ n → Q ≠ [] → '%' ∉ Q →
      r ≠ Q ++ sprintf r [] := by
  intro n
  induction n with
  | zero =>
    intro r Q hn hQ _ heq
    have hr : r = [] := List.length_eq_zero.mp (Nat.le_zero.mp hn)
    subst hr
    exact hQ (by simpa [sprintf] using heq.symm)
  | succ n ih =>
    intro r Q hn hQ hpct heq
    cases r with
    | nil => exact hQ (by simpa [sprintf] using heq.symm)
    | cons a r' =>
      cases Q with
      | nil => exact hQ rfl
      | cons q Q' =>
        have hq : q ≠ '%' := fun h => hpct (by rw [h]; exact List.mem_cons_self _ _)
        rw [List.cons_append] at heq
        have ha : a = q := (List.cons.inj heq).1
        subst ha
        have ha' : ¬a = '%' := hq
        have htl := (List.cons.inj heq).2
        rw [sprintf_cons_ne ha'] at htl
        rw [List.append_cons] at htl
        refine ih r' (Q' ++ [a]) ?_ (by simp) ?_ htl
        · have : r'.length + 1 ≤ n + 1 := by simpa using hn
          omega
        · intro hmem
          rcases List.mem_append.mp hmem with h | h
          · exact hpct (List.mem_cons_of_mem _ h)
          · rw [List.mem_singleton] at h
            exact ha' h.symm

/-- The no-operand formatting of a string never equals that string with
percent signs prepended. -/
theorem sprintf_no_pct_prefix :
    ∀ (n k : Nat) (r : List Char), r.length ≤ n → 1 ≤ k →
      sprintf r [] ≠ List.replicate k '%' ++ r := by
  intro n
  induction n with
  | zero =>
    intro k r hn hk heq
    have hr : r = [] := List.length_eq_zero.mp (Nat.le_zero.mp hn)
    subst hr
    have := congrArg List.length heq
    simp [sprintf] at this
    omega
  | succ n ih =>
    intro k r hn hk heq
    obtain ⟨k', rfl⟩ : ∃ k', k = k' + 1 := ⟨k - 1, by omega⟩
    cases r with
    | nil =>
      have := congrArg List.length heq
      simp [sprintf] at this
    | cons a r' =>
      by_cases hA : a = '%'
      · subst hA
        cases r' with
        | nil =>
          rw [sprintf_pct_single, List.replicate_succ, List.cons_append] at heq
          have h2 := (List.cons.inj heq).2
          cases k' with
          | zero => exact absurd h2 (by decide)
          | succ k'' =>
            rw [List.replicate_succ, List.cons_append] at h2
            exact absurd (List.cons.inj h2).1 (by decide)
        | cons b r'' =>
          by_cases hB : b = '%'
          · subst hB
            rw [sprintf_pct_pct, List.replicate_succ, List.cons_append] at heq
            have h2 := (List.cons.inj heq).2
            have hrw : List.replicate k' '%' ++ '%' :: '%' :: r'' =
                List.replicate (k' + 2) '%' ++ r'' := by
              rw [show ('%' :: '%' :: r'' : List Char) = List.replicate 2 '%' ++ r'' from rfl,
                ← List.append_assoc, ← List.replicate_add]
            rw [hrw] at h2
            refine ih (k' + 2) r'' ?_ (by omega) h2
            have : r''.length + 2 ≤ n + 1 := by simpa using hn
            omega
          · rw [sprintf_pct_verb hB, List.replicate_succ, List.cons_append] at heq
            have h2 := (List.cons.inj heq).2
            cases k' with
            | zero =>
              rw [List.replicate_zero] at h2
              exact absurd (List.cons.inj h2).1 (by decide)
            | succ k'' =>
              rw [List.replicate_succ, List.cons_append] at h2
              exact absurd (List.cons.inj h2).1 (by decide)
      · rw [sprintf_cons_ne hA, List.replicate_succ, List.cons_append] at heq
        exact hA (List.cons.inj heq).1

/-- Formatting a percent-containing string with no operands always
changes it. -/
theorem sprintf_noargs_ne_self :
    ∀ (n : Nat) (r : List Char), r.length ≤ n → '%' ∈ r → sprintf r [] ≠ r := by
  intro n
  induction n with
  | zero =>
    intro r hn hmem
    have hr : r = [] := List.length_eq_zero.mp (Nat.le_zero.mp hn)
    subst hr
    simp at hmem
  | succ n ih =>
    intro r hn hmem heq
    cases r with
    | nil => simp at hmem
    | cons a r' =>
      by_cases hA : a = '%'
      · subst hA
        cases r' with
        | nil =>
          rw [sprintf_pct_single] at heq
          exact absurd heq (by decide)
        | cons b r'' =>
          by_cases hB : b = '%'
          · subst hB
            rw [sprintf_pct_pct] at heq
            have h2 := (List.cons.inj heq).2
            exact sprintf_no_pct_prefix r''.length 1 r'' le_rfl le_rfl (by simpa using h2)
          · rw [sprintf_pct_verb hB] at heq
            have h2 := (List.cons.inj heq).2
            have hb : ('!' : Char) = b := (List.cons.inj h2).1
            have h3 := (List.cons.inj h2).2
            rw [← hb] at h3
            have h4 : r'' = "!(MISSING)".data ++ sprintf r'' [] := by
              rw [show ("!(MISSING)".data : List Char) =
                '!' :: "(MISSING)".data from rfl, List.cons_append]
              exact h3.symm
            exact sprintf_no_self_extension r''.length r'' "!(MISSING)".data le_rfl
              (by decide) (by decide) h4
      · rw [sprintf_cons_ne hA] at heq
        have h2 := (List.cons.inj heq).2
        have hmem' : '%' ∈ r' := by
          rcases List.mem_cons.mp hmem with h | h
          · exact absurd h.symm hA
          · exact h
        refine ih r' ?_ hmem' h2
        have : r'.length + 1 ≤ n + 1 := by simpa using hn
        omega

theorem composeLog_logLevel_irrel (cfg : Config) (t : Nat)
    (now cFile cFn lbl : String) (args : List Arg) :
    composeLog { cfg with logLevel := t } now cFile cFn lbl args =
      composeLog cfg now cFile cFn lbl args := rfl

theorem printLog_sink (cfg : Config) (now cFile cFn lbl : String) (args : List Arg) :
    (printLog cfg now cFile cFn lbl args).sink =
      if logLevels lbl ≥ cfg.logLevel then
        Option.map (fun s => String.mk (sprintf s.data []))
          (composeLog cfg now cFile cFn lbl args)
      else none := by
  by_cases hc : logLevels lbl ≥ cfg.logLevel
  · cases h : composeLog cfg now cFile cFn lbl args <;> simp [printLog, hc, h]
  · simp [printLog, hc]

theorem Fatal_sink (cfg : Config) (now cFile cFn : String) (args : List Arg) :
    (Fatal cfg now cFile cFn args).sink =
      (printLog cfg now cFile cFn fatalLabel args).sink := by
  unfold Fatal
  rcases h : printLog cfg now cFile cFn fatalLabel args with ⟨s, t⟩
  cases t <;> rfl

theorem entryCall_sink_eq (lbl : String)
    (h : lbl ∈ [traceLabel, debugLabel, infoLabel, warnLabel, errorLabel, fatalLabel])
    (cfg : Config) (now cFile cFn : String) (args : List Arg) :
    (entryCall lbl cfg now cFile cFn args).sink =
      (printLog cfg now cFile cFn lbl args).sink := by
  fin_cases h
  · rfl
  · rfl
  · rfl
  · rfl
  · rfl
  · exact Fatal_sink cfg now cFile cFn args

/-! ## Claim C4 -/

/-- Claim C4 (status: code_bug).  The claim says no leveled log call
other than the intentional panic/fatal entry points may panic, and that
message composition is total.  The code violates this: with two (or
more) arguments that are all nil, `stringify` builds the empty string
and evaluates `msg[:len(msg)-1]`, a slice-bounds-out-of-range runtime
panic; an emitted `Info(nil, nil)` call therefore aborts the caller.
This theorem evaluates the embedded code at the failing input. -/
theorem stringify_all_nil_panics :
    stringify [Arg.nil, Arg.nil] = none ∧
      composeMessage defaultConfig [Arg.nil, Arg.nil] = none ∧
      (Info defaultConfig "t m=1" "" "" [Arg.nil, Arg.nil]).term =
        Termination.panicked runtimeSliceErr :=
  ⟨rfl, rfl, rfl⟩

/-! ## Claim C9 -/

/-- Claim C9 (status: confirmed).  Every recognized level name sets the
threshold to that level's rank, and every unrecognized name falls back
to the rank of `info`; the setter is a total function (never errors).
The rank constants live outside src/ and are modelled from the spec. -/
theorem logLevel_setter_spec :
    (LogLevel traceLabel = traceLevel ∧ LogLevel debugLabel = debugLevel ∧
      LogLevel infoLabel = infoLevel ∧ LogLevel warnLabel = warnLevel ∧
      LogLevel errorLabel = errorLevel ∧ LogLevel panicLabel = panicLevel ∧
      LogLevel fatalLabel = fatalLevel) ∧
    ∀ name : String,
      name ∉ [traceLabel, debugLabel, infoLabel, warnLabel, errorLabel,
        panicLabel, fatalLabel] →
      LogLevel name = infoLevel := by
  refine ⟨⟨rfl, rfl, rfl, rfl, rfl, rfl, rfl⟩, ?_⟩
  intro name h
  simp only [List.mem_cons, List.mem_singleton, not_or] at h
  obtain ⟨h1, h2, h3, h4, h5, h6, h7⟩ := h
  simp [LogLevel, logLevels, h1, h2, h3, h4, h5, h6, h7]

/-- Witness for C9 at the unrecognized name `verbose`. -/
theorem logLevel_setter_spec_witness :
    ("verbose" ∉ [traceLabel, debugLabel, infoLabel, warnLabel, errorLabel,
        panicLabel, fatalLabel]) ∧
      LogLevel "verbose" = infoLevel :=
  ⟨by decide, logLevel_setter_spec.2 "verbose" (by decide)⟩

/-! ## Claim C5 -/

/-- Claim C5 (status: confirmed).  A call with at least two arguments
whose first is a string containing a percent character (in particular,
any string containing a printf directive) renders the printf-style
substitution of the remaining arguments into that string, and the
result is final plain text for every configuration: it is a plain
string message — never JSON-detected, never parsed, never redacted. -/
theorem format_directive_substitution (cfg : Config) (s : String) (a : Arg)
    (rest : List Arg) (h : hasPct s.data = true) :
    composeMessage cfg (Arg.str s :: a :: rest) =
      some (MsgValue.str (String.mk (sprintf s.data (a :: rest)))) ∧
    ∀ j : Json, composeMessage cfg (Arg.str s :: a :: rest) ≠ some (MsgValue.json j) := by
  constructor
  · simp [composeMessage, h]
  · intro j hj
    rw [show composeMessage cfg (Arg.str s :: a :: rest) =
        some (MsgValue.str (String.mk (sprintf s.data (a :: rest)))) by
      simp [composeMessage, h]] at hj
    exact MsgValue.noConfusion (Option.some.injEq _ _ ▸ hj)

/-- Witness for C5 at the spec's example `log.Warn("%d left", 2)`,
whose message renders as `2 left`. -/
theorem format_directive_substitution_witness :
    hasPct "%d left".data = true ∧
      (composeMessage defaultConfig [Arg.str "%d left", Arg.int 2] =
          some (MsgValue.str (String.mk (sprintf "%d left".data [Arg.int 2]))) ∧
        ∀ j : Json,
          composeMessage defaultConfig [Arg.str "%d left", Arg.int 2] ≠
            some (MsgValue.json j)) ∧
      String.mk (sprintf "%d left".data [Arg.int 2]) = "2 left" :=
  ⟨rfl, format_directive_substitution defaultConfig "%d left" (Arg.int 2) [] rfl, rfl⟩

/-! ## Claim C6 -/

/-- Claim C6 (status: corrected), counterexample.  The claim says the
chaining join applies whenever the first of several arguments is not a
string containing a format directive.  The code instead tests for a bare
percent character: for `Info("50%", "off")` — `50%` contains no format
directive — the claim predicts the chained message `50% off`, but the
code takes the `fmt.Sprintf` branch and renders
`50%!(NOVERB)%!(EXTRA string=off)`. -/
theorem chaining_counterexample :
    composeMessage defaultConfig [Arg.str "50%", Arg.str "off"] =
      some (MsgValue.str "50%!(NOVERB)%!(EXTRA string=off)") ∧
    ("50%!(NOVERB)%!(EXTRA string=off)" : String) ≠ "50% off" :=
  ⟨rfl, by decide⟩

/-- Claim C6 (status: corrected), amended claim.  For every call with at
least two arguments whose first argument is not a string containing a
percent character, the message is exactly the `stringify` concatenation:
each non-nil argument's default textual representation followed by one
space, with the trailing separator trimmed (and a runtime panic —
`none` — when every argument is nil, cf. C4). -/
theorem chaining_mode (cfg : Config) (a : Arg) (rest : List Arg)
    (hrest : rest ≠ [])
    (ha : ∀ s : String, a = Arg.str s → hasPct s.data = false) :
    composeMessage cfg (a :: rest) = Option.map MsgValue.str (stringify (a :: rest)) := by
  cases rest with
  | nil => exact absurd rfl hrest
  | cons r1 rest' =>
    cases a with
    | str s => simp [composeMessage, ha s rfl]
    | nil => simp [composeMessage]
    | int n => simp [composeMessage]
    | json j => simp [composeMessage]

/-- Witness for C6 at the spec's example `log.Info("a", 1, "b")`, whose
message renders as `a 1 b`. -/
theorem chaining_mode_witness :
    ([Arg.int 1, Arg.str "b"] ≠ ([] : List Arg)) ∧
      composeMessage defaultConfig [Arg.str "a", Arg.int 1, Arg.str "b"] =
        Option.map MsgValue.str (stringify [Arg.str "a", Arg.int 1, Arg.str "b"]) ∧
      stringify [Arg.str "a", Arg.int 1, Arg.str "b"] = some "a 1 b" :=
  ⟨by simp,
    chaining_mode defaultConfig (Arg.str "a") [Arg.int 1, Arg.str "b"] (by simp)
      (fun s hs => by cases hs; rfl),
    rfl⟩

/-! ## Claim C2 -/

/-- Claim C2 (status: corrected), counterexample.  The claim quantifies
over every payload in which a configured sensitive field is present as a
string-valued field.  For the valid JSON string `{"password":"a\"b"}`
(the value contains an escaped quote), the plain-form regex matches up
to the escaped quote and rewrites the text to
`{"password": "**********"b"}` — no longer valid JSON — so the message
falls back to a plain string: the field's value is not the mask and the
message is not a native object. -/
theorem redaction_counterexample :
    composeMessage passwordConfig [Arg.str "\x7b\"password\":\"a\\\"b\"\x7d"] =
      some (MsgValue.str "\x7b\"password\": \"**********\"b\"\x7d") ∧
    ∀ j : Json,
      MsgValue.str "\x7b\"password\": \"**********\"b\"\x7d" ≠ MsgValue.json j :=
  ⟨rfl, fun _ h => MsgValue.noConfusion h⟩

/-- Claim C2 (status: corrected), amended claim, proved at the spec's
end-to-end example: with redaction enabled for `password`, logging the
string `{"u":"x","password":"secret"}` yields a message that is the
native JSON object `{"u":"x","password":"**********"}` — the configured
field's value is the ten-asterisk mask, the field `u` outside the
configured set is unchanged, and the envelope embeds the object
natively. -/
theorem redaction_example :
    composeMessage passwordConfig [Arg.str "\x7b\"u\":\"x\",\"password\":\"secret\"\x7d"] =
      some (MsgValue.json (Json.obj (JsonFields.cons "u" (Json.str "x")
        (JsonFields.cons "password" (Json.str "**********") JsonFields.nil)))) ∧
    Option.map (fun r => jsonObjLookup "message" (recordToJson r))
        (composeRecord passwordConfig "t m=1" "" "" infoLabel
          [Arg.str "\x7b\"u\":\"x\",\"password\":\"secret\"\x7d"]) =
      some (some (Json.obj (JsonFields.cons "u" (Json.str "x")
        (JsonFields.cons "password" (Json.str "**********") JsonFields.nil)))) :=
  ⟨rfl, rfl⟩

theorem printLog_sink_threshold (cfg : Config) (t : Nat)
    (now cFile cFn lbl : String) (args : List Arg) :
    (printLog { cfg with logLevel := t } now cFile cFn lbl args).sink =
      if logLevels lbl ≥ t then
        Option.map (fun s => String.mk (sprintf s.data []))
          (composeLog cfg now cFile cFn lbl args)
      else none := by
  rw [printLog_sink, composeLog_logLevel_irrel]

theorem takeWhile_append_stop (p : Char → Bool) (l r : List Char)
    (hl : ∀ c ∈ l, p c = true) (hm : p 'm' = false) :
    (l ++ 'm' :: r).takeWhile p = l := by
  induction l with
  | nil => simp [List.takeWhile_cons, hm]
  | cons a l ih =>
    have ha : p a = true := hl a (List.mem_cons_self a l)
    simp [List.takeWhile_cons, ha, ih (fun c hc => hl c (List.mem_cons_of_mem a hc))]

theorem timeField_strip (d rest : String) (hd : ∀ c ∈ d.data, c ≠ 'm') :
    timeField (String.mk (d.data ++ 'm' :: rest.data)) = d := by
  unfold timeField
  rw [show (String.mk (d.data ++ 'm' :: rest.data)).data =
    d.data ++ 'm' :: rest.data from rfl]
  rw [takeWhile_append_stop (fun c => decide (c ≠ 'm')) d.data rest.data
    (fun c hc => by simp [hd c hc]) (by simp)]

mutual
theorem unmarshalJson_id : ∀ j : Json, numsInRange j = true → unmarshalJson j = j
  | Json.null, _ => rfl
  | Json.bool _, _ => rfl
  | Json.str _, _ => rfl
  | Json.num lit, h => by
    have hx : numOutOfRange lit.data = false := by
      simpa [numsInRange] using h
    simp [unmarshalJson, hx]
  | Json.arr items, h => by
    have hi : numsInRangeItems items = true := by simpa [numsInRange] using h
    simp [unmarshalJson, unmarshalItems_id items hi]
  | Json.obj fields, h => by
    have hf : numsInRangeFields fields = true := by simpa [numsInRange] using h
    simp [unmarshalJson, unmarshalFields_id fields hf]
theorem unmarshalItems_id : ∀ l : JsonItems, numsInRangeItems l = true → unmarshalItems l = l
  | JsonItems.nil, _ => rfl
  | JsonItems.cons j tl, h => by
    have h2 : numsInRange j = true ∧ numsInRangeItems tl = true := by
      simpa [numsInRangeItems, Bool.and_eq_true] using h
    simp [unmarshalItems, unmarshalJson_id j h2.1, unmarshalItems_id tl h2.2]
theorem unmarshalFields_id : ∀ l : JsonFields, numsInRangeFields l = true → unmarshalFields l = l
  | JsonFields.nil, _ => rfl
  | JsonFields.cons k v tl, h => by
    have h2 : numsInRange v = true ∧ numsInRangeFields tl = true := by
      simpa [numsInRangeFields, Bool.and_eq_true] using h
    simp [unmarshalFields, unmarshalJson_id v h2.1, unmarshalFields_id tl h2.2]
end

/-! ## Claim C1 -/

/-- Claim C1 (status: corrected), counterexample.  The claim says a
valid-JSON string argument always yields the parsed value as the
message, and an invalid one the literal string.  The string `1e999` is
valid JSON (`json.Valid` checks syntax only) and parses as the number
`1e999`, but `json.Unmarshal`'s `float64` conversion fails with a range
error, which `strToObj` discards, leaving the nil value: the program's
message is null — neither the parsed number nor the literal string. -/
theorem json_range_counterexample :
    composeMessage defaultConfig [Arg.str "1e999"] = some (MsgValue.json Json.null) ∧
    parseJson ("1e999" : String).data = some (Json.num "1e999") ∧
    MsgValue.json Json.null ≠ MsgValue.json (Json.num "1e999") ∧
    MsgValue.json Json.null ≠ MsgValue.str "1e999" :=
  ⟨rfl, rfl,
    fun h => Json.noConfusion (MsgValue.json.inj h),
    fun h => MsgValue.noConfusion h⟩

/-- Claim C1 (status: corrected), amended claim.  For a single string
argument: if the (possibly redacted) string is valid JSON, the message
is the Go-decoded value — the parsed tree with every
out-of-`float64`-range number replaced by null, since the discarded
Unmarshal range error leaves nil there — embedded natively in the
envelope and never as a string; whenever the parsed value contains no
out-of-range number (every number in practice), the message is exactly
the parsed value, structurally equal to parsing the input.  If the
string is not valid JSON, the message equals the literal (possibly
redacted) string. -/
theorem single_string_decode_adaptation (cfg : Config) (now cFile cFn lbl s : String) :
    (∀ j : Json, parseJson (redactedInput cfg s).data = some j →
      ∃ r : Record,
        composeRecord cfg now cFile cFn lbl [Arg.str s] = some r ∧
        r.message = MsgValue.json (unmarshalJson j) ∧
        jsonObjLookup "message" (recordToJson r) = some (unmarshalJson j) ∧
        (numsInRange j = true → r.message = MsgValue.json j) ∧
        ∀ t : String, r.message ≠ MsgValue.str t) ∧
    (parseJson (redactedInput cfg s).data = none →
      ∃ r : Record,
        composeRecord cfg now cFile cFn lbl [Arg.str s] = some r ∧
        r.message = MsgValue.str (redactedInput cfg s)) := by
  have hmsg : ∀ j : Json, parseJson (redactedInput cfg s).data = some j →
      adaptMessage cfg (Arg.str s) = MsgValue.json (unmarshalJson j) := by
    intro j hj
    rw [adaptMessage_str]
    unfold strToObj
    rw [hj]
  constructor
  · intro j hj
    refine ⟨_, composeRecord_single_str cfg now cFile cFn lbl s, ?_, ?_, ?_, ?_⟩
    · exact hmsg j hj
    · rw [recordToJson_message]
      show some (msgToJson (adaptMessage cfg (Arg.str s))) = some (unmarshalJson j)
      rw [hmsg j hj]
      rfl
    · intro hnum
      show adaptMessage cfg (Arg.str s) = MsgValue.json j
      rw [hmsg j hj, unmarshalJson_id j hnum]
    · intro t
      show adaptMessage cfg (Arg.str s) ≠ MsgValue.str t
      rw [hmsg j hj]
      exact fun hc => MsgValue.noConfusion hc
  · intro hj
    refine ⟨_, composeRecord_single_str cfg now cFile cFn lbl s, ?_⟩
    show adaptMessage cfg (Arg.str s) = MsgValue.str (redactedInput cfg s)
    rw [adaptMessage_str]
    unfold strToObj
    rw [hj]

/-- Witness for C1 at the valid-JSON string `{"a":1}` with redaction
disabled (its number is in range, so the message is the parsed tree
itself). -/
theorem single_string_decode_adaptation_witness :
    parseJson (redactedInput defaultConfig "\x7b\"a\":1\x7d").data =
      some (Json.obj (JsonFields.cons "a" (Json.num "1") JsonFields.nil)) ∧
    ∃ r : Record,
      composeRecord defaultConfig "t m=1" "" "" infoLabel [Arg.str "\x7b\"a\":1\x7d"] =
        some r ∧
      r.message =
        MsgValue.json (unmarshalJson
          (Json.obj (JsonFields.cons "a" (Json.num "1") JsonFields.nil))) ∧
      jsonObjLookup "message" (recordToJson r) =
        some (unmarshalJson
          (Json.obj (JsonFields.cons "a" (Json.num "1") JsonFields.nil))) ∧
      (numsInRange (Json.obj (JsonFields.cons "a" (Json.num "1") JsonFields.nil)) = true →
        r.message =
          MsgValue.json (Json.obj (JsonFields.cons "a" (Json.num "1") JsonFields.nil))) ∧
      ∀ t : String, r.message ≠ MsgValue.str t :=
  ⟨rfl,
    (single_string_decode_adaptation defaultConfig "t m=1" "" "" infoLabel
        "\x7b\"a\":1\x7d").1
      (Json.obj (JsonFields.cons "a" (Json.num "1") JsonFields.nil)) rfl⟩

/-! ## Claim C3 -/

/-- Claim C3 (status: corrected), counterexample.  The claim says a call
at an enabled level always writes a record to the sink.  With the
default threshold (info) the call `Info(nil, nil)` is at an enabled
level, yet nothing reaches the sink: message composition panics
(cf. C4), so the emission biconditional fails as stated. -/
theorem threshold_counterexample :
    logLevels infoLabel ≥ defaultConfig.logLevel ∧
      (Info defaultConfig "t m=1" "" "" [Arg.nil, Arg.nil]).sink = none ∧
      (Info defaultConfig "t m=1" "" "" [Arg.nil, Arg.nil]).term =
        Termination.panicked runtimeSliceErr :=
  ⟨by decide, rfl, rfl⟩

/-- Claim C3 (status: corrected), amended claim.  For each of the six
non-panic entry points, provided message composition succeeds, a call
writes a record to the sink iff the level's rank is at least the active
threshold; and raising the threshold shrinks the emitted set
monotonically (unconditionally). -/
theorem threshold_filtering (cfg : Config) (now cFile cFn : String) (args : List Arg)
    (lbl : String)
    (h : lbl ∈ [traceLabel, debugLabel, infoLabel, warnLabel, errorLabel, fatalLabel]) :
    (∀ s : String, composeLog cfg now cFile cFn lbl args = some s →
      ((entryCall lbl cfg now cFile cFn args).sink.isSome = true ↔
        logLevels lbl ≥ cfg.logLevel)) ∧
    ∀ t₁ t₂ : Nat, t₁ ≤ t₂ →
      (entryCall lbl { cfg with logLevel := t₂ } now cFile cFn args).sink.isSome = true →
      (entryCall lbl { cfg with logLevel := t₁ } now cFile cFn args).sink.isSome = true := by
  constructor
  · intro s hs
    rw [entryCall_sink_eq lbl h, printLog_sink, hs]
    by_cases hc : logLevels lbl ≥ cfg.logLevel
    · simp [hc]
    · simp [hc]
  · intro t₁ t₂ ht hsome
    rw [entryCall_sink_eq lbl h, printLog_sink_threshold] at hsome
    rw [entryCall_sink_eq lbl h, printLog_sink_threshold]
    by_cases hc2 : logLevels lbl ≥ t₂
    · rw [if_pos hc2] at hsome
      rw [if_pos (le_trans ht hc2)]
      exact hsome
    · rw [if_neg hc2] at hsome
      simp at hsome

/-- Witness for C3 at an `Info` call with the default threshold. -/
theorem threshold_filtering_witness :
    (infoLabel ∈ [traceLabel, debugLabel, infoLabel, warnLabel, errorLabel, fatalLabel]) ∧
      composeLog defaultConfig "t m=1" "" "" infoLabel [Arg.str "hi"] =
        some "\x7b\"level\":\"info\",\"message\":\"hi\",\"time\":\"t \"\x7d" ∧
      ((entryCall infoLabel defaultConfig "t m=1" "" "" [Arg.str "hi"]).sink.isSome = true ↔
        logLevels infoLabel ≥ defaultConfig.logLevel) :=
  ⟨by decide, rfl,
    (threshold_filtering defaultConfig "t m=1" "" "" [Arg.str "hi"] infoLabel (by decide)).1
      "\x7b\"level\":\"info\",\"message\":\"hi\",\"time\":\"t \"\x7d" rfl⟩

/-! ## Claim C7 -/

/-- Claim C7 (status: corrected), counterexample.  The claim says the
time field is the current timestamp truncated to whole-second precision
with no sub-second fraction in the rendered record.  The code computes
`strings.Split(time.Now().String(), "m")[0]`, which cuts at the first
`m` — the monotonic-clock suffix ` m=+…` — and keeps the fractional
seconds: for a now-string carrying `.123456`, the time field still
contains the fraction (and a trailing space), and differs from the
whole-second truncation. -/
theorem time_precision_counterexample :
    Option.map Record.time
        (composeRecord defaultConfig
          "2021-04-01 19:17:33.123456 +0200 CEST m=+0.000000001" "" "" infoLabel
          [Arg.str "hi"]) =
      some "2021-04-01 19:17:33.123456 +0200 CEST " ∧
    ("2021-04-01 19:17:33.123456 +0200 CEST " : String).data.contains '.' = true ∧
    ("2021-04-01 19:17:33.123456 +0200 CEST " : String) ≠
      "2021-04-01 19:17:33 +0200 CEST" :=
  ⟨rfl, rfl, by decide⟩

/-- Claim C7 (status: corrected), amended claim.  The envelope's time
field is the current time string truncated at its first `m` character:
for any now-string `d ++ "m" ++ rest` whose prefix `d` is `m`-free, the
recorded time is exactly `d` — this strips Go's monotonic-clock suffix
but keeps any sub-second fraction appearing in `d`. -/
theorem time_monotonic_suffix_strip (cfg : Config) (d rest : String)
    (cFile cFn lbl : String) (args : List Arg) (r : Record)
    (hd : ∀ c ∈ d.data, c ≠ 'm')
    (hr : composeRecord cfg (String.mk (d.data ++ 'm' :: rest.data)) cFile cFn lbl args =
      some r) :
    r.time = d := by
  unfold composeRecord at hr
  rw [Option.map_eq_some'] at hr
  obtain ⟨m, _, rfl⟩ := hr
  exact timeField_strip d rest hd

/-- Witness for C7 at a concrete fractional timestamp. -/
theorem time_monotonic_suffix_strip_witness :
    (∀ c ∈ ("2021-04-01 19:17:33.5 +0200 CEST " : String).data, c ≠ 'm') ∧
      composeRecord defaultConfig
          (String.mk (("2021-04-01 19:17:33.5 +0200 CEST " : String).data ++
            'm' :: ("=+0.000000001" : String).data)) "" "" infoLabel [Arg.str "hi"] =
        some
          { level := infoLabel
            message := MsgValue.str "hi"
            time := "2021-04-01 19:17:33.5 +0200 CEST "
            file := none
            function := none } ∧
      ({ level := infoLabel
         message := MsgValue.str "hi"
         time := "2021-04-01 19:17:33.5 +0200 CEST "
         file := none
         function := none } : Record).time = "2021-04-01 19:17:33.5 +0200 CEST " :=
  ⟨by decide, rfl,
    time_monotonic_suffix_strip defaultConfig "2021-04-01 19:17:33.5 +0200 CEST "
      "=+0.000000001" "" "" infoLabel [Arg.str "hi"] _ (by decide) rfl⟩

/-! ## Claim C8 -/

/-- Claim C8 (status: corrected), counterexample.  The claim says the
panic entry point always composes and renders its record and panics with
the rendered text.  For `Panic(nil, nil)` composition itself panics
before any record is rendered: the panic payload is the runtime
slice-bounds error, not a rendered record (no record exists —
`composeLog` is undefined here). -/
theorem panic_counterexample :
    Panic defaultConfig "t m=1" "" "" [Arg.nil, Arg.nil] =
      { sink := none, term := Termination.panicked runtimeSliceErr } ∧
    composeLog defaultConfig "t m=1" "" "" panicLabel [Arg.nil, Arg.nil] = none :=
  ⟨rfl, rfl⟩

/-- Claim C8 (status: corrected), amended claim.  Whenever message
composition succeeds, `Panic` composes and renders its record ignoring
the active threshold (the outcome is identical for every threshold
value), raises a panic whose payload is the rendered text, and writes
nothing to the sink. -/
theorem panic_always_renders (cfg : Config) (now cFile cFn : String) (args : List Arg)
    (s : String) (h : composeLog cfg now cFile cFn panicLabel args = some s) :
    Panic cfg now cFile cFn args = { sink := none, term := Termination.panicked s } ∧
    ∀ t : Nat, Panic { cfg with logLevel := t } now cFile cFn args =
      { sink := none, term := Termination.panicked s } := by
  constructor
  · simp [Panic, h]
  · intro t
    have h' : composeLog { cfg with logLevel := t } now cFile cFn panicLabel args = some s :=
      (composeLog_logLevel_irrel cfg t now cFile cFn panicLabel args).trans h
    simp [Panic, h']

/-- Witness for C8 at `Panic("boom")`. -/
theorem panic_always_renders_witness :
    composeLog defaultConfig "t m=1" "" "" panicLabel [Arg.str "boom"] =
      some "\x7b\"level\":\"panic\",\"message\":\"boom\",\"time\":\"t \"\x7d" ∧
    (Panic defaultConfig "t m=1" "" "" [Arg.str "boom"] =
        { sink := none
          term := Termination.panicked
            "\x7b\"level\":\"panic\",\"message\":\"boom\",\"time\":\"t \"\x7d" } ∧
      ∀ t : Nat, Panic { defaultConfig with logLevel := t } "t m=1" "" "" [Arg.str "boom"] =
        { sink := none
          term := Termination.panicked
            "\x7b\"level\":\"panic\",\"message\":\"boom\",\"time\":\"t \"\x7d" }) :=
  ⟨rfl,
    panic_always_renders defaultConfig "t m=1" "" "" [Arg.str "boom"]
      "\x7b\"level\":\"panic\",\"message\":\"boom\",\"time\":\"t \"\x7d" rfl⟩

/-! ## Claim C10 -/

/-- Claim C10 (status: confirmed).  Every emitted non-panic record is
handed to `fmt.Fprintf` as the format string with no substitution
arguments; and formatting any percent-containing string with no
arguments always changes it, so whenever the rendered record contains a
percent character the bytes reaching the sink differ from the record —
the sink does not always receive the record verbatim.  (The `fmt` model
treats the character after `%` as the verb; Go's flag/width parsing is
not modelled, which does not affect the inequality.) -/
theorem record_as_format_string :
    (∀ (cfg : Config) (now cFile cFn lbl : String) (args : List Arg) (s : String),
      composeLog cfg now cFile cFn lbl args = some s →
      logLevels lbl ≥ cfg.logLevel →
      printLog cfg now cFile cFn lbl args =
        { sink := some (String.mk (sprintf s.data []))
          term := Termination.normal }) ∧
    ∀ l : List Char, '%' ∈ l → sprintf l [] ≠ l := by
  constructor
  · intro cfg now cFile cFn lbl args s h hrank
    simp [printLog, hrank, h]
  · intro l hl
    exact sprintf_noargs_ne_self l.length l le_rfl hl

/-- Witness for C10: a concrete emitted record passes through the
formatter, and a percent-containing text is changed by it. -/
theorem record_as_format_string_witness :
    composeLog defaultConfig "t m=1" "" "" infoLabel [Arg.str "hi"] =
      some "\x7b\"level\":\"info\",\"message\":\"hi\",\"time\":\"t \"\x7d" ∧
    logLevels infoLabel ≥ defaultConfig.logLevel ∧
    printLog defaultConfig "t m=1" "" "" infoLabel [Arg.str "hi"] =
      { sink := some (String.mk (sprintf
          ("\x7b\"level\":\"info\",\"message\":\"hi\",\"time\":\"t \"\x7d" : String).data []))
        term := Termination.normal } ∧
    ('%' ∈ ("100%" : String).data) ∧
    sprintf ("100%" : String).data [] ≠ ("100%" : String).data :=
  ⟨rfl, by decide,
    record_as_format_string.1 defaultConfig "t m=1" "" "" infoLabel [Arg.str "hi"]
      "\x7b\"level\":\"info\",\"message\":\"hi\",\"time\":\"t \"\x7d" rfl (by decide),
    by decide,
    record_as_format_string.2 ("100%" : String).data (by decide)⟩

end Noodlog
